import Mathlib

/-!
Verification of the FIFO-based arithmetic client/server (src/server.c, src/client.c).

Shallow embedding conventions:
* C `int64_t` values are Lean `Int` constrained to `[-2^63, 2^63)`; overflow of
  `+`, `-`, `*` is modelled by explicit reduction modulo `2^64` (`wrap64`),
  matching the spec's documented fixed-width wrap-around behaviour.
* C strings (the `error` message, the `resp_fifo` path) are modelled as the
  list of their bytes up to (excluding) the terminating NUL; byte buffers with
  no string interpretation (the 4-byte `operation` tag) are raw byte lists.
* The packed structs are encoded to flat little-endian byte lists by the wire
  codec (`encodeRequest` / `encodeResponse`), exactly mirroring the in-memory
  layout of the `__attribute__((packed))` C structs.
-/

namespace Arith

/-- Constant `OP_MAX` from server.c / client.c: size of the operation tag buffer. -/
def OP_MAX : Nat := 4

/-- Constant `RESP_NAME_MAX` from server.c / client.c: size of the `resp_fifo` buffer. -/
def RESP_NAME_MAX : Nat := 128

/-- Byte list of a Lean string literal (used for C string constants). -/
def strToBytes (s : String) : List Nat := s.toList.map Char.toNat

/-- Reduce an unbounded integer into the signed 64-bit range `[-2^63, 2^63)`
by reduction modulo `2^64`: the fixed-width signed wrap-around that the spec
documents for `int64_t` arithmetic. -/
def wrap64 (x : Int) : Int := (x + 2 ^ 63) % 2 ^ 64 - 2 ^ 63

/-- Struct `request_msg_t` (server.c lines 30-36, mirrored in client.c lines 24-30).
`operation` is the raw 4-byte tag buffer; `resp_fifo` holds the bytes of the
reply FIFO path before the terminating NUL. -/
structure request_msg_t where
  operation : List Nat
  operand1 : Int
  operand2 : Int
  client_pid : Int
  resp_fifo : List Nat
  deriving Repr, DecidableEq

/-- Struct `response_msg_t` (server.c lines 39-43, mirrored in client.c lines 33-37).
`error` holds the bytes of the error message before the terminating NUL. -/
structure response_msg_t where
  result : Int
  success : Int
  error : List Nat
  deriving Repr, DecidableEq

/-- A request is valid when its buffers have the C struct sizes and its
integer fields are in range: the 4 tag bytes are bytes, the operands are
signed 64-bit, the pid is signed 32-bit, and the reply path is a NUL-free
byte string that fits in the 128-byte buffer with its terminator. -/
def ValidRequest (rq : request_msg_t) : Prop :=
  rq.operation.length = OP_MAX ∧ (∀ b ∈ rq.operation, b < 256) ∧
  -(2 ^ 63) ≤ rq.operand1 ∧ rq.operand1 < 2 ^ 63 ∧
  -(2 ^ 63) ≤ rq.operand2 ∧ rq.operand2 < 2 ^ 63 ∧
  -(2 ^ 31) ≤ rq.client_pid ∧ rq.client_pid < 2 ^ 31 ∧
  rq.resp_fifo.length < RESP_NAME_MAX ∧ (∀ b ∈ rq.resp_fifo, 0 < b ∧ b < 256)

/-- A response is valid when its integer fields are in range and the error
message is a NUL-free byte string fitting the 128-byte buffer. -/
def ValidResponse (rp : response_msg_t) : Prop :=
  -(2 ^ 63) ≤ rp.result ∧ rp.result < 2 ^ 63 ∧
  -(2 ^ 31) ≤ rp.success ∧ rp.success < 2 ^ 31 ∧
  rp.error.length < 128 ∧ (∀ b ∈ rp.error, 0 < b ∧ b < 256)

instance : DecidablePred ValidRequest := fun rq => by
  unfold ValidRequest; infer_instance

instance : DecidablePred ValidResponse := fun rp => by
  unfold ValidResponse; infer_instance

/-- Function `compute` (server.c lines 111-121). Takes the incoming response buffer
state `rp0` because the C function only overwrites the fields it assigns:
`result` is left untouched on the divide-by-zero and invalid-operation paths
(the caller's buffer value shows through, zeroed in the child path).
The C code compares only the FIRST THREE bytes of the tag
(`memcmp(rq->operation,"add",3)`), which the `List.take 3` mirrors.
`a / b` in C truncates toward zero, i.e. `Int.tdiv`; the single C-undefined
input (`INT64_MIN / -1`) is modelled by the exact truncated quotient. -/
def compute (rq : request_msg_t) (rp0 : response_msg_t) : response_msg_t :=
  let rp1 : response_msg_t := { rp0 with success := 1, error := [] }
  let a := rq.operand1
  let b := rq.operand2
  if rq.operation.take 3 = strToBytes "add" then
    { rp1 with result := wrap64 (a + b) }
  else if rq.operation.take 3 = strToBytes "sub" then
    { rp1 with result := wrap64 (a - b) }
  else if rq.operation.take 3 = strToBytes "mul" then
    { rp1 with result := wrap64 (a * b) }
  else if rq.operation.take 3 = strToBytes "div" then
    if b = 0 then
      { rp1 with success := 0, error := strToBytes "Divide by zero" }
    else
      { rp1 with result := a.tdiv b }
  else
    { rp1 with success := 0, error := strToBytes "Invalid operation" }

/-- The all-zero response buffer (`memset(&rp,0,sizeof(rp))`, server.c line 182). -/
def zeroResponse : response_msg_t := { result := 0, success := 0, error := [] }

/-- The mathematically exact (unwrapped) value of an add/sub/mul operation,
selected by the tag exactly as `compute` selects it. Spec-side helper used to
state the wrap-around claim. -/
def exactArith (op : List Nat) (a b : Int) : Int :=
  if op.take 3 = strToBytes "add" then a + b
  else if op.take 3 = strToBytes "sub" then a - b
  else a * b

lemma wrap64_lb (x : Int) : -(2 ^ 63) ≤ wrap64 x := by
  have h : (0 : Int) ≤ (x + 2 ^ 63) % 2 ^ 64 := Int.emod_nonneg _ (by norm_num)
  unfold wrap64; omega

lemma wrap64_ub (x : Int) : wrap64 x < 2 ^ 63 := by
  have h : (x + 2 ^ 63) % 2 ^ 64 < 2 ^ 64 := Int.emod_lt_of_pos _ (by norm_num)
  unfold wrap64; omega

lemma wrap64_emod (x : Int) : wrap64 x % 2 ^ 64 = x % 2 ^ 64 := by
  unfold wrap64
  omega

lemma tag_sub_ne_add : strToBytes "sub" ≠ strToBytes "add" := by decide

lemma tag_mul_ne_add : strToBytes "mul" ≠ strToBytes "add" := by decide

lemma tag_mul_ne_sub : strToBytes "mul" ≠ strToBytes "sub" := by decide

/-- Unfolding of `compute` on the add tag. -/
lemma compute_add (rq : request_msg_t) (rp0 : response_msg_t)
    (h : rq.operation.take 3 = strToBytes "add") :
    compute rq rp0 =
      { rp0 with success := 1, error := [],
                 result := wrap64 (rq.operand1 + rq.operand2) } := by
  simp [compute, h]

/-- Unfolding of `compute` on the sub tag. -/
lemma compute_sub (rq : request_msg_t) (rp0 : response_msg_t)
    (h : rq.operation.take 3 = strToBytes "sub") :
    compute rq rp0 =
      { rp0 with success := 1, error := [],
                 result := wrap64 (rq.operand1 - rq.operand2) } := by
  simp [compute, h, tag_sub_ne_add]

/-- Unfolding of `compute` on the mul tag. -/
lemma compute_mul (rq : request_msg_t) (rp0 : response_msg_t)
    (h : rq.operation.take 3 = strToBytes "mul") :
    compute rq rp0 =
      { rp0 with success := 1, error := [],
                 result := wrap64 (rq.operand1 * rq.operand2) } := by
  simp [compute, h, tag_mul_ne_add, tag_mul_ne_sub]

lemma exactArith_add (op : List Nat) (a b : Int) (h : op.take 3 = strToBytes "add") :
    exactArith op a b = a + b := by
  unfold exactArith; rw [h]; simp

lemma exactArith_sub (op : List Nat) (a b : Int) (h : op.take 3 = strToBytes "sub") :
    exactArith op a b = a - b := by
  unfold exactArith; rw [h]; simp [tag_sub_ne_add]

lemma exactArith_mul (op : List Nat) (a b : Int) (h : op.take 3 = strToBytes "mul") :
    exactArith op a b = a * b := by
  unfold exactArith; rw [h]; simp [tag_mul_ne_add, tag_mul_ne_sub]

/-- C1: for signed 64-bit operands and a tag that `compute` recognises as
add, sub or mul, the response has `success = 1`, an empty error message, and
a `result` lying in the signed 64-bit range and congruent modulo `2^64` to
the mathematically exact sum / difference / product — i.e. the exact value
wrapped into the signed 64-bit range. -/
theorem compute_arith_ok_and_wraps (rq : request_msg_t) (rp0 : response_msg_t)
    (ha1 : -(2 ^ 63) ≤ rq.operand1) (ha2 : rq.operand1 < 2 ^ 63)
    (hb1 : -(2 ^ 63) ≤ rq.operand2) (hb2 : rq.operand2 < 2 ^ 63)
    (hop : rq.operation.take 3 = strToBytes "add" ∨
           rq.operation.take 3 = strToBytes "sub" ∨
           rq.operation.take 3 = strToBytes "mul") :
    (compute rq rp0).success = 1 ∧ (compute rq rp0).error = [] ∧
    -(2 ^ 63) ≤ (compute rq rp0).result ∧ (compute rq rp0).result < 2 ^ 63 ∧
    (compute rq rp0).result % 2 ^ 64 =
      exactArith rq.operation rq.operand1 rq.operand2 % 2 ^ 64 := by
  rcases hop with h | h | h
  · rw [compute_add rq rp0 h, exactArith_add _ _ _ h]
    exact ⟨rfl, rfl, wrap64_lb _, wrap64_ub _, wrap64_emod _⟩
  · rw [compute_sub rq rp0 h, exactArith_sub _ _ _ h]
    exact ⟨rfl, rfl, wrap64_lb _, wrap64_ub _, wrap64_emod _⟩
  · rw [compute_mul rq rp0 h, exactArith_mul _ _ _ h]
    exact ⟨rfl, rfl, wrap64_lb _, wrap64_ub _, wrap64_emod _⟩

/-- Witness for C1 at the concrete request add(6, 9). -/
theorem compute_arith_ok_and_wraps_witness :
    (compute ⟨strToBytes "add" ++ [0], 6, 9, 42, []⟩ zeroResponse).success = 1 ∧
    (compute ⟨strToBytes "add" ++ [0], 6, 9, 42, []⟩ zeroResponse).error = [] ∧
    -(2 ^ 63) ≤ (compute ⟨strToBytes "add" ++ [0], 6, 9, 42, []⟩ zeroResponse).result ∧
    (compute ⟨strToBytes "add" ++ [0], 6, 9, 42, []⟩ zeroResponse).result < 2 ^ 63 ∧
    (compute ⟨strToBytes "add" ++ [0], 6, 9, 42, []⟩ zeroResponse).result % 2 ^ 64 =
      exactArith (strToBytes "add" ++ [0]) 6 9 % 2 ^ 64 :=
  compute_arith_ok_and_wraps ⟨strToBytes "add" ++ [0], 6, 9, 42, []⟩ zeroResponse
    (by decide) (by decide) (by decide) (by decide) (Or.inl (by decide))

lemma tag_div_ne_add : strToBytes "div" ≠ strToBytes "add" := by decide

lemma tag_div_ne_sub : strToBytes "div" ≠ strToBytes "sub" := by decide

lemma tag_div_ne_mul : strToBytes "div" ≠ strToBytes "mul" := by decide

/-- Unfolding of `compute` on the div tag. -/
lemma compute_div (rq : request_msg_t) (rp0 : response_msg_t)
    (h : rq.operation.take 3 = strToBytes "div") :
    compute rq rp0 =
      if rq.operand2 = 0 then
        { rp0 with success := 0, error := strToBytes "Divide by zero" }
      else
        { rp0 with success := 1, error := [],
                   result := rq.operand1.tdiv rq.operand2 } := by
  by_cases hb : rq.operand2 = 0 <;>
    simp [compute, h, hb, tag_div_ne_add, tag_div_ne_sub, tag_div_ne_mul]

/-- C2: on the div tag, `compute` answers `success = 0` with error message
exactly "Divide by zero" if and only if the second operand is 0, and for a
nonzero second operand it answers `success = 1` with the quotient truncated
toward zero (`Int.tdiv`). -/
theorem compute_div_spec (rq : request_msg_t) (rp0 : response_msg_t)
    (h : rq.operation.take 3 = strToBytes "div") :
    (((compute rq rp0).success = 0 ∧
      (compute rq rp0).error = strToBytes "Divide by zero") ↔ rq.operand2 = 0) ∧
    (rq.operand2 ≠ 0 →
      (compute rq rp0).success = 1 ∧ (compute rq rp0).error = [] ∧
      (compute rq rp0).result = rq.operand1.tdiv rq.operand2) := by
  rw [compute_div rq rp0 h]
  by_cases hb : rq.operand2 = 0
  · simp [hb]
  · simp [hb]

/-- Witness for C2 at the concrete requests div(10, 0) and div(7, -2). -/
theorem compute_div_spec_witness :
    ((((compute ⟨strToBytes "div" ++ [0], 10, 0, 1, []⟩ zeroResponse).success = 0 ∧
       (compute ⟨strToBytes "div" ++ [0], 10, 0, 1, []⟩ zeroResponse).error =
         strToBytes "Divide by zero") ↔ (0 : Int) = 0) ∧
     ((0 : Int) ≠ 0 →
       (compute ⟨strToBytes "div" ++ [0], 10, 0, 1, []⟩ zeroResponse).success = 1 ∧
       (compute ⟨strToBytes "div" ++ [0], 10, 0, 1, []⟩ zeroResponse).error = [] ∧
       (compute ⟨strToBytes "div" ++ [0], 10, 0, 1, []⟩ zeroResponse).result =
         Int.tdiv 10 0)) ∧
    ((((compute ⟨strToBytes "div" ++ [0], 7, -2, 1, []⟩ zeroResponse).success = 0 ∧
       (compute ⟨strToBytes "div" ++ [0], 7, -2, 1, []⟩ zeroResponse).error =
         strToBytes "Divide by zero") ↔ (-2 : Int) = 0) ∧
     ((-2 : Int) ≠ 0 →
       (compute ⟨strToBytes "div" ++ [0], 7, -2, 1, []⟩ zeroResponse).success = 1 ∧
       (compute ⟨strToBytes "div" ++ [0], 7, -2, 1, []⟩ zeroResponse).error = [] ∧
       (compute ⟨strToBytes "div" ++ [0], 7, -2, 1, []⟩ zeroResponse).result =
         Int.tdiv 7 (-2))) :=
  ⟨compute_div_spec ⟨strToBytes "div" ++ [0], 10, 0, 1, []⟩ zeroResponse (by decide),
   compute_div_spec ⟨strToBytes "div" ++ [0], 7, -2, 1, []⟩ zeroResponse (by decide)⟩

/-- C3 counterexample: the 4-byte tag `['a','d','d','x']` is none of the four
valid 4-byte tags (zero-padded "add", "sub", "mul", "div"), yet `compute`
does NOT answer "Invalid operation" on it: `memcmp(rq->operation,"add",3)`
compares only the first three bytes, so the tag is computed as an add and
the response has `success = 1`. -/
theorem compute_unknown_tag_counterexample :
    ([97, 100, 100, 120] : List Nat) ≠ strToBytes "add" ++ [0] ∧
    ([97, 100, 100, 120] : List Nat) ≠ strToBytes "sub" ++ [0] ∧
    ([97, 100, 100, 120] : List Nat) ≠ strToBytes "mul" ++ [0] ∧
    ([97, 100, 100, 120] : List Nat) ≠ strToBytes "div" ++ [0] ∧
    ¬ ((compute ⟨[97, 100, 100, 120], 1, 2, 0, []⟩ zeroResponse).success = 0 ∧
       (compute ⟨[97, 100, 100, 120], 1, 2, 0, []⟩ zeroResponse).error =
         strToBytes "Invalid operation") ∧
    (compute ⟨[97, 100, 100, 120], 1, 2, 0, []⟩ zeroResponse).success = 1 := by
  refine ⟨by decide, by decide, by decide, by decide, ?_, ?_⟩ <;> decide

/-- C3 amended: for every 4-byte tag whose FIRST THREE bytes differ from
"add", "sub", "mul" and "div", `compute` answers `success = 0` with error
message exactly "Invalid operation" (tags are matched on their first three
bytes only). -/
theorem compute_unknown_tag_invalid (rq : request_msg_t) (rp0 : response_msg_t)
    (h1 : rq.operation.take 3 ≠ strToBytes "add")
    (h2 : rq.operation.take 3 ≠ strToBytes "sub")
    (h3 : rq.operation.take 3 ≠ strToBytes "mul")
    (h4 : rq.operation.take 3 ≠ strToBytes "div") :
    (compute rq rp0).success = 0 ∧
    (compute rq rp0).error = strToBytes "Invalid operation" := by
  simp [compute, h1, h2, h3, h4]

/-- Witness for the amended C3 at the concrete tag "quo\0". -/
theorem compute_unknown_tag_invalid_witness :
    (compute ⟨strToBytes "quo" ++ [0], 3, 4, 0, []⟩ zeroResponse).success = 0 ∧
    (compute ⟨strToBytes "quo" ++ [0], 3, 4, 0, []⟩ zeroResponse).error =
      strToBytes "Invalid operation" :=
  compute_unknown_tag_invalid ⟨strToBytes "quo" ++ [0], 3, 4, 0, []⟩ zeroResponse
    (by decide) (by decide) (by decide) (by decide)

/-- C10: `compute` is deterministic and depends only on the operation tag and
the two operands: two requests agreeing on `operation`, `operand1` and
`operand2` but differing arbitrarily in `client_pid` and `resp_fifo` produce
field-wise identical responses. -/
theorem compute_noninterference (rq1 rq2 : request_msg_t) (rp0 : response_msg_t)
    (hop : rq1.operation = rq2.operation)
    (h1 : rq1.operand1 = rq2.operand1)
    (h2 : rq1.operand2 = rq2.operand2) :
    compute rq1 rp0 = compute rq2 rp0 := by
  simp only [compute, hop, h1, h2]

/-- Witness for C10: two add(6,9) requests from different pids with different
reply FIFOs get identical responses. -/
theorem compute_noninterference_witness :
    compute ⟨strToBytes "add" ++ [0], 6, 9, 1001, strToBytes "/tmp/a"⟩ zeroResponse =
    compute ⟨strToBytes "add" ++ [0], 6, 9, 2002, strToBytes "/tmp/b"⟩ zeroResponse :=
  compute_noninterference
    ⟨strToBytes "add" ++ [0], 6, 9, 1001, strToBytes "/tmp/a"⟩
    ⟨strToBytes "add" ++ [0], 6, 9, 2002, strToBytes "/tmp/b"⟩
    zeroResponse rfl rfl rfl

/-! ### Wire codec

The `__attribute__((packed))` structs travel on the FIFOs as their raw
in-memory bytes.  We model this as an explicit little-endian byte codec over
the flat layout: `operation[4] | operand1[8] | operand2[8] | client_pid[4] |
resp_fifo[128]` for requests (152 bytes) and `result[8] | success[4] |
error[128]` for responses (140 bytes). -/

/-- Value of `sizeof(request_msg_t)` for the packed struct: 4 + 8 + 8 + 4 + 128. -/
def FIXED_REQ_LEN : Nat := 152

/-- Value of `sizeof(response_msg_t)` for the packed struct: 8 + 4 + 128. -/
def FIXED_RESP_LEN : Nat := 140

/-- Little-endian byte list of `v`, exactly `k` bytes. -/
def natToLE : Nat → Nat → List Nat
  | 0, _ => []
  | k + 1, v => v % 256 :: natToLE k (v / 256)

/-- Value of a little-endian byte list. -/
def leToNat : List Nat → Nat
  | [] => 0
  | b :: bs => b + 256 * leToNat bs

lemma natToLE_length (k v : Nat) : (natToLE k v).length = k := by
  induction k generalizing v with
  | zero => rfl
  | succ k ih => simp [natToLE, ih]

lemma natToLE_lt (k v : Nat) : ∀ b ∈ natToLE k v, b < 256 := by
  induction k generalizing v with
  | zero => simp [natToLE]
  | succ k ih =>
    intro b hb
    simp only [natToLE, List.mem_cons] at hb
    rcases hb with h | h
    · omega
    · exact ih (v / 256) b h

lemma leToNat_natToLE (k v : Nat) : leToNat (natToLE k v) = v % 256 ^ k := by
  induction k generalizing v with
  | zero => simp [natToLE, leToNat, Nat.mod_one]
  | succ k ih =>
    simp only [natToLE, leToNat, ih]
    rw [pow_succ, mul_comm (256 ^ k) 256, Nat.mod_mul]

/-- Two's-complement little-endian encoding of an `int64_t`. -/
def encodeInt64 (x : Int) : List Nat := natToLE 8 (x % 2 ^ 64).toNat

/-- Decode 8 little-endian bytes as an `int64_t`. -/
def decodeInt64 (bs : List Nat) : Int :=
  if leToNat bs < 2 ^ 63 then (leToNat bs : Int) else (leToNat bs : Int) - 2 ^ 64

/-- Two's-complement little-endian encoding of an `int32_t` (`pid_t`). -/
def encodeInt32 (x : Int) : List Nat := natToLE 4 (x % 2 ^ 32).toNat

/-- Decode 4 little-endian bytes as an `int32_t`. -/
def decodeInt32 (bs : List Nat) : Int :=
  if leToNat bs < 2 ^ 31 then (leToNat bs : Int) else (leToNat bs : Int) - 2 ^ 32

lemma decodeInt64_encodeInt64 (x : Int) (h1 : -(2 ^ 63) ≤ x) (h2 : x < 2 ^ 63) :
    decodeInt64 (encodeInt64 x) = x := by
  unfold decodeInt64 encodeInt64
  rw [leToNat_natToLE]
  have hm0 : 0 ≤ x % 2 ^ 64 := Int.emod_nonneg _ (by norm_num)
  have hm1 : x % 2 ^ 64 < 2 ^ 64 := Int.emod_lt_of_pos _ (by norm_num)
  have h256 : (256 : Nat) ^ 8 = 2 ^ 64 := by norm_num
  rw [h256]
  split <;> omega

lemma decodeInt32_encodeInt32 (x : Int) (h1 : -(2 ^ 31) ≤ x) (h2 : x < 2 ^ 31) :
    decodeInt32 (encodeInt32 x) = x := by
  unfold decodeInt32 encodeInt32
  rw [leToNat_natToLE]
  have hm0 : 0 ≤ x % 2 ^ 32 := Int.emod_nonneg _ (by norm_num)
  have hm1 : x % 2 ^ 32 < 2 ^ 32 := Int.emod_lt_of_pos _ (by norm_num)
  have h256 : (256 : Nat) ^ 4 = 2 ^ 32 := by norm_num
  rw [h256]
  split <;> omega

/-- Zero-fill a byte string out to the `k`-byte buffer size (the NUL
terminator and the zeroed trailing bytes of the C `char[k]` field). -/
def padTo (k : Nat) (bs : List Nat) : List Nat := bs ++ List.replicate (k - bs.length) 0

/-- Read a C string out of a byte buffer: the bytes before the first NUL. -/
def takeCStr (bs : List Nat) : List Nat := bs.takeWhile (fun b => b != 0)

lemma padTo_length (k : Nat) (bs : List Nat) (h : bs.length ≤ k) :
    (padTo k bs).length = k := by
  simp [padTo]; omega

lemma takeCStr_replicate (m : Nat) : takeCStr (List.replicate m 0) = [] := by
  cases m <;> simp [takeCStr, List.replicate, List.takeWhile]

lemma takeCStr_padTo (k : Nat) (bs : List Nat) (h : ∀ b ∈ bs, 0 < b) :
    takeCStr (padTo k bs) = bs := by
  unfold takeCStr padTo
  rw [List.takeWhile_append_of_pos]
  · rw [show List.takeWhile (fun b => b != 0) (List.replicate (k - bs.length) 0) =
        takeCStr (List.replicate (k - bs.length) 0) from rfl,
      takeCStr_replicate, List.append_nil]
  · intro b hb
    have := h b hb
    simp; omega

/-- Serialize a request into its 152 packed bytes (little-endian fields). -/
def encodeRequest (rq : request_msg_t) : List Nat :=
  rq.operation ++ (encodeInt64 rq.operand1 ++ (encodeInt64 rq.operand2 ++
    (encodeInt32 rq.client_pid ++ padTo RESP_NAME_MAX rq.resp_fifo)))

/-- Deserialize 152 packed bytes into a request. -/
def decodeRequest (bs : List Nat) : request_msg_t :=
  { operation := bs.take 4
    operand1 := decodeInt64 ((bs.drop 4).take 8)
    operand2 := decodeInt64 ((bs.drop 12).take 8)
    client_pid := decodeInt32 ((bs.drop 20).take 4)
    resp_fifo := takeCStr ((bs.drop 24).take 128) }

/-- Serialize a response into its 140 packed bytes (little-endian fields). -/
def encodeResponse (rp : response_msg_t) : List Nat :=
  encodeInt64 rp.result ++ (encodeInt32 rp.success ++ padTo 128 rp.error)

/-- Deserialize 140 packed bytes into a response. -/
def decodeResponse (bs : List Nat) : response_msg_t :=
  { result := decodeInt64 (bs.take 8)
    success := decodeInt32 ((bs.drop 8).take 4)
    error := takeCStr ((bs.drop 12).take 128) }

lemma encodeRequest_length (rq : request_msg_t) (h : ValidRequest rq) :
    (encodeRequest rq).length = FIXED_REQ_LEN := by
  obtain ⟨hop, -, -, -, -, -, -, -, hf, -⟩ := h
  simp [encodeRequest, natToLE_length, encodeInt64, encodeInt32, padTo,
    FIXED_REQ_LEN, hop, OP_MAX]
  unfold RESP_NAME_MAX at hf ⊢
  omega

lemma encodeResponse_length (rp : response_msg_t) (h : ValidResponse rp) :
    (encodeResponse rp).length = FIXED_RESP_LEN := by
  obtain ⟨-, -, -, -, he, -⟩ := h
  simp [encodeResponse, natToLE_length, encodeInt64, encodeInt32, padTo,
    FIXED_RESP_LEN]
  omega

/-- C4 (request half): decoding the encoding of a valid request gives back a
field-wise equal request, and the encoding is exactly `FIXED_REQ_LEN` bytes. -/
lemma decodeRequest_encodeRequest (rq : request_msg_t) (h : ValidRequest rq) :
    decodeRequest (encodeRequest rq) = rq := by
  obtain ⟨hop, hopb, ha1, ha2, hb1, hb2, hp1, hp2, hf, hfb⟩ := h
  have hA : rq.operation.length = 4 := hop
  have hB : (encodeInt64 rq.operand1).length = 8 := natToLE_length _ _
  have hC : (encodeInt64 rq.operand2).length = 8 := natToLE_length _ _
  have hD : (encodeInt32 rq.client_pid).length = 4 := natToLE_length _ _
  have hE : (padTo RESP_NAME_MAX rq.resp_fifo).length = 128 :=
    padTo_length _ _ (le_of_lt hf)
  have ht4 : (encodeRequest rq).take 4 = rq.operation := by
    unfold encodeRequest; exact List.take_left' hA
  have hd4 : (encodeRequest rq).drop 4 =
      encodeInt64 rq.operand1 ++ (encodeInt64 rq.operand2 ++
        (encodeInt32 rq.client_pid ++ padTo RESP_NAME_MAX rq.resp_fifo)) := by
    unfold encodeRequest; exact List.drop_left' hA
  have hd12 : (encodeRequest rq).drop 12 =
      encodeInt64 rq.operand2 ++
        (encodeInt32 rq.client_pid ++ padTo RESP_NAME_MAX rq.resp_fifo) := by
    unfold encodeRequest
    rw [← List.append_assoc]
    exact List.drop_left' (by simp [hA, hB])
  have hd20 : (encodeRequest rq).drop 20 =
      encodeInt32 rq.client_pid ++ padTo RESP_NAME_MAX rq.resp_fifo := by
    unfold encodeRequest
    rw [← List.append_assoc, ← List.append_assoc]
    exact List.drop_left' (by simp [hA, hB, hC])
  have hd24 : (encodeRequest rq).drop 24 = padTo RESP_NAME_MAX rq.resp_fifo := by
    unfold encodeRequest
    rw [← List.append_assoc, ← List.append_assoc, ← List.append_assoc]
    exact List.drop_left' (by simp [hA, hB, hC, hD])
  unfold decodeRequest
  rw [ht4, hd4, hd12, hd20, hd24, List.take_left' hB, List.take_left' hC,
    List.take_left' hD, List.take_of_length_le (le_of_eq hE),
    decodeInt64_encodeInt64 _ ha1 ha2, decodeInt64_encodeInt64 _ hb1 hb2,
    decodeInt32_encodeInt32 _ hp1 hp2,
    takeCStr_padTo _ _ (fun b hb => (hfb b hb).1)]

/-- C4 (response half): decoding the encoding of a valid response gives back
a field-wise equal response. -/
lemma decodeResponse_encodeResponse (rp : response_msg_t) (h : ValidResponse rp) :
    decodeResponse (encodeResponse rp) = rp := by
  obtain ⟨hr1, hr2, hs1, hs2, he, heb⟩ := h
  have hA : (encodeInt64 rp.result).length = 8 := natToLE_length _ _
  have hB : (encodeInt32 rp.success).length = 4 := natToLE_length _ _
  have hC : (padTo 128 rp.error).length = 128 := padTo_length _ _ (le_of_lt he)
  have ht8 : (encodeResponse rp).take 8 = encodeInt64 rp.result := by
    unfold encodeResponse; exact List.take_left' hA
  have hd8 : (encodeResponse rp).drop 8 =
      encodeInt32 rp.success ++ padTo 128 rp.error := by
    unfold encodeResponse; exact List.drop_left' hA
  have hd12 : (encodeResponse rp).drop 12 = padTo 128 rp.error := by
    unfold encodeResponse
    rw [← List.append_assoc]
    exact List.drop_left' (by simp [hA, hB])
  unfold decodeResponse
  rw [ht8, hd8, hd12, List.take_left' hB, List.take_of_length_le (le_of_eq hC),
    decodeInt64_encodeInt64 _ hr1 hr2, decodeInt32_encodeInt32 _ hs1 hs2,
    takeCStr_padTo _ _ (fun b hb => (heb b hb).1)]

/-- C4: for every valid request and valid response, the fixed-length byte
encoding decodes back to a field-wise equal record, a request encoding to
exactly `FIXED_REQ_LEN = 152` bytes and a response to exactly
`FIXED_RESP_LEN = 140` bytes. -/
theorem codec_round_trip (rq : request_msg_t) (rp : response_msg_t)
    (hrq : ValidRequest rq) (hrp : ValidResponse rp) :
    decodeRequest (encodeRequest rq) = rq ∧
    (encodeRequest rq).length = FIXED_REQ_LEN ∧
    decodeResponse (encodeResponse rp) = rp ∧
    (encodeResponse rp).length = FIXED_RESP_LEN :=
  ⟨decodeRequest_encodeRequest rq hrq, encodeRequest_length rq hrq,
   decodeResponse_encodeResponse rp hrp, encodeResponse_length rp hrp⟩

/-- A concrete valid request used by witnesses: add(6, 9) from pid 42. -/
def sampleRequest : request_msg_t :=
  { operation := strToBytes "add" ++ [0]
    operand1 := 6
    operand2 := 9
    client_pid := 42
    resp_fifo := strToBytes "/tmp/arith_resp_42.fifo" }

/-- A concrete valid response used by witnesses: the error response of div(10,0). -/
def sampleResponse : response_msg_t :=
  { result := 0
    success := 0
    error := strToBytes "Divide by zero" }

/-- Witness for C4 at `sampleRequest` / `sampleResponse`. -/
theorem codec_round_trip_witness :
    decodeRequest (encodeRequest sampleRequest) = sampleRequest ∧
    (encodeRequest sampleRequest).length = FIXED_REQ_LEN ∧
    decodeResponse (encodeResponse sampleResponse) = sampleResponse ∧
    (encodeResponse sampleResponse).length = FIXED_RESP_LEN :=
  codec_round_trip sampleRequest sampleResponse (by decide) (by decide)

/-! ### Reliable channel I/O: `read_full`

`read_full` (server.c lines 88-97, textually identical in client.c lines
40-49) loops over the underlying `read(2)` call.  We model the environment as
a trace of `read` outcomes: each event is what one `read` call returns. -/

/-- Outcome of one underlying `read(2)` call. -/
inductive ReadEvent
  | eof
  | eintr
  | err
  | bytes (k : Nat)
  deriving Repr, DecidableEq

/-- Result of `read_full`: a nonnegative byte count, the -1 error return, or
`blocked` when the outcome trace is exhausted while the loop still waits
(the call would block). -/
inductive ReadResult
  | ret (k : Nat)
  | fail
  | blocked
  deriving Repr, DecidableEq

/-- Model of `read_full(fd, buf, n)` starting at offset `off`, consuming the trace of
underlying `read` outcomes: returns `off` on EOF (`r==0`), retries on EINTR,
returns -1 (`fail`) on any other read error, and accumulates delivered bytes
until `off` reaches `n` (server.c lines 88-97). -/
def read_full (n : Nat) : List ReadEvent → Nat → ReadResult
  | evs, off =>
    if n ≤ off then .ret off
    else
      match evs with
      | [] => .blocked
      | .eof :: _ => .ret off
      | .eintr :: rest => read_full n rest off
      | .err :: _ => .fail
      | .bytes k :: rest => read_full n rest (off + k)

/-- An event a `read` call can yield while data keeps arriving: a signal
interruption or a positive delivery. -/
def ReadEvent.isDelivery : ReadEvent → Bool
  | .eintr => true
  | .bytes _ => true
  | _ => false

/-- A trace of only interruptions and deliveries. -/
def DeliveryTrace (evs : List ReadEvent) : Prop := ∀ e ∈ evs, e.isDelivery = true

instance : DecidablePred DeliveryTrace := fun evs => by
  unfold DeliveryTrace; infer_instance

/-- Trace validity relative to the number of bytes still needed: `read` is
called for `need` bytes, so it delivers at least 1 and at most `need`. -/
def validReads (need : Nat) : List ReadEvent → Bool
  | [] => true
  | .eof :: _ => true
  | .err :: _ => true
  | .eintr :: rest => validReads need rest
  | .bytes k :: rest => decide (1 ≤ k) && decide (k ≤ need) && validReads (need - k) rest

/-- Total number of bytes the deliveries of a trace carry. -/
def sumBytes : List ReadEvent → Nat
  | [] => 0
  | .bytes k :: rest => k + sumBytes rest
  | _ :: rest => sumBytes rest

lemma read_full_of_le (n : Nat) (evs : List ReadEvent) (off : Nat) (h : n ≤ off) :
    read_full n evs off = .ret off := by
  rw [read_full.eq_def]
  simp [h]

lemma sumBytes_zero_of_validReads_zero (evs : List ReadEvent)
    (hd : DeliveryTrace evs) (hv : validReads 0 evs = true) : sumBytes evs = 0 := by
  induction evs with
  | nil => rfl
  | cons e rest ih =>
    have hde : e.isDelivery = true := hd e (List.mem_cons_self e rest)
    have hdr : DeliveryTrace rest := fun x hx => hd x (List.mem_cons_of_mem e hx)
    cases e with
    | eintr => simpa [sumBytes] using ih hdr (by simpa [validReads] using hv)
    | bytes k =>
      simp only [validReads, Bool.and_eq_true, decide_eq_true_eq] at hv
      omega
    | eof => simp [ReadEvent.isDelivery] at hde
    | err => simp [ReadEvent.isDelivery] at hde

/-- Running `read_full` through a valid delivery prefix accumulates exactly
the delivered bytes, then continues with the remaining trace. -/
lemma read_full_deliver (n : Nat) (evs rest : List ReadEvent) (off : Nat)
    (hd : DeliveryTrace evs) (hv : validReads (n - off) evs = true) :
    read_full n (evs ++ rest) off = read_full n rest (off + sumBytes evs) := by
  induction evs generalizing off with
  | nil => simp [sumBytes]
  | cons e evs ih =>
    have hde : e.isDelivery = true := hd e (List.mem_cons_self e evs)
    have hdr : DeliveryTrace evs := fun x hx => hd x (List.mem_cons_of_mem e hx)
    by_cases hno : n ≤ off
    · have hz : sumBytes (e :: evs) = 0 := by
        have : n - off = 0 := by omega
        exact sumBytes_zero_of_validReads_zero _ hd (by rw [← this]; exact hv)
      rw [read_full_of_le n _ off hno, hz, read_full_of_le n rest _ (by omega)]
      simp
    · cases e with
      | eintr =>
        rw [show ((ReadEvent.eintr :: evs) ++ rest) = ReadEvent.eintr :: (evs ++ rest) from rfl]
        simp only [read_full, if_neg hno]
        simpa [sumBytes] using ih off hdr (by simpa [validReads] using hv)
      | bytes k =>
        simp only [validReads, Bool.and_eq_true, decide_eq_true_eq] at hv
        obtain ⟨⟨hk1, hk2⟩, hv⟩ := hv
        rw [show ((ReadEvent.bytes k :: evs) ++ rest) = ReadEvent.bytes k :: (evs ++ rest)
          from rfl]
        simp only [read_full, if_neg hno]
        have := ih (off + k) hdr (by rw [show n - (off + k) = n - off - k by omega]; exact hv)
        rw [this, show off + k + sumBytes evs = off + sumBytes (ReadEvent.bytes k :: evs)
          from by simp [sumBytes]; omega]
      | eof => simp [ReadEvent.isDelivery] at hde
      | err => simp [ReadEvent.isDelivery] at hde

/-- Function `read_full` never returns -1 unless the trace holds a non-interrupt
read failure. -/
lemma read_full_no_err (n : Nat) (evs : List ReadEvent) (off : Nat)
    (h : ∀ e ∈ evs, e ≠ .err) : read_full n evs off ≠ .fail := by
  induction evs generalizing off with
  | nil => by_cases hno : n ≤ off <;> simp [read_full, hno]
  | cons e evs ih =>
    by_cases hno : n ≤ off
    · simp [read_full_of_le n _ off hno]
    · have he : e ≠ .err := h e (List.mem_cons_self e evs)
      have hr : ∀ x ∈ evs, x ≠ .err := fun x hx => h x (List.mem_cons_of_mem e hx)
      cases e with
      | eof => simp [read_full, hno]
      | eintr => simpa [read_full, hno] using ih off hr
      | err => exact absurd rfl he
      | bytes k => simpa [read_full, hno] using ih (off + k) hr

/-- C5: `read_full` over a stream of underlying read outcomes:
(1) an interrupted read (EINTR) is transparently retried;
(2) if `n` bytes arrive (a valid delivery trace summing to `n`), it returns
    exactly `n`;
(3) if the peer closes (EOF) after only `k < n` bytes, it returns `k` — a
    `ret`, not an error;
(4) a non-interrupt read failure makes it return the error value;
(5) it returns the error value ONLY then: with no such failure in the trace,
    `fail` is impossible. -/
theorem read_full_spec (n : Nat) (evs rest : List ReadEvent)
    (hd : DeliveryTrace evs) (hv : validReads n evs = true) :
    (∀ off, off < n → read_full n (.eintr :: evs) off = read_full n evs off) ∧
    (sumBytes evs = n → read_full n (evs ++ rest) 0 = .ret n) ∧
    (sumBytes evs < n →
      read_full n (evs ++ ReadEvent.eof :: rest) 0 = .ret (sumBytes evs)) ∧
    (sumBytes evs < n → read_full n (evs ++ ReadEvent.err :: rest) 0 = .fail) ∧
    (∀ m (evs2 : List ReadEvent) off,
      (∀ e ∈ evs2, e ≠ .err) → read_full m evs2 off ≠ .fail) := by
  have hv0 : validReads (n - 0) evs = true := by simpa using hv
  refine ⟨?_, ?_, ?_, ?_, read_full_no_err⟩
  · intro off hoff
    rw [read_full.eq_def]
    simp [Nat.not_le.mpr hoff]
  · intro hsum
    rw [read_full_deliver n evs rest 0 hd hv0, Nat.zero_add, hsum,
      read_full_of_le n rest n (le_refl n)]
  · intro hsum
    rw [read_full_deliver n evs _ 0 hd hv0, Nat.zero_add, read_full.eq_def]
    simp [Nat.not_le.mpr hsum]
  · intro hsum
    rw [read_full_deliver n evs _ 0 hd hv0, Nat.zero_add, read_full.eq_def]
    simp [Nat.not_le.mpr hsum]

/-- Witness for C5: n = 3 with the trace [deliver 1, EINTR, deliver 1]
(2 bytes in total, then the trailing event decides). -/
theorem read_full_spec_witness :
    (∀ off, off < 3 →
      read_full 3 (.eintr :: [.bytes 1, .eintr, .bytes 1]) off =
        read_full 3 [.bytes 1, .eintr, .bytes 1] off) ∧
    (sumBytes [.bytes 1, .eintr, .bytes 1] = 3 →
      read_full 3 ([.bytes 1, .eintr, .bytes 1] ++ [.eof]) 0 = .ret 3) ∧
    (sumBytes [.bytes 1, .eintr, .bytes 1] < 3 →
      read_full 3 ([.bytes 1, .eintr, .bytes 1] ++ ReadEvent.eof :: [.eof]) 0 =
        .ret (sumBytes [.bytes 1, .eintr, .bytes 1])) ∧
    (sumBytes [.bytes 1, .eintr, .bytes 1] < 3 →
      read_full 3 ([.bytes 1, .eintr, .bytes 1] ++ ReadEvent.err :: [.eof]) 0 = .fail) ∧
    (∀ m (evs2 : List ReadEvent) off,
      (∀ e ∈ evs2, e ≠ .err) → read_full m evs2 off ≠ .fail) :=
  read_full_spec 3 [.bytes 1, .eintr, .bytes 1] [.eof] (by decide) (by decide)

/-! ### Server dispatch loop (server.c lines 144-223)

One loop iteration reads a request with `read_full` and branches on the
result `r` (server.c lines 149-157): `r == 0` → close/reopen and continue;
`r < 0` → continue on EINTR, `die()` otherwise; `0 < r < sizeof(rq)` → log
"Partial request ... ignored" and continue; a full read → fork a worker.
We model an iteration's input as the `read_full` return value `r` (a C
`ssize_t`), the EINTR flag relevant when `r < 0`, and the buffer contents
relevant when the read was complete. -/

/-- Input of one dispatch-loop iteration. -/
structure LoopInput where
  r : Int
  isIntr : Bool
  rq : request_msg_t
  deriving Repr, DecidableEq

/-- What one dispatch-loop iteration does. -/
inductive IterAction
  | reopen
  | contIntr
  | halt
  | skipShort (k : Nat)
  | dispatch (rq : request_msg_t)
  deriving Repr, DecidableEq

/-- The branch chain of one iteration (server.c lines 149-157, 171-221). -/
def serverIteration (inp : LoopInput) : IterAction :=
  if inp.r = 0 then .reopen
  else if inp.r < 0 then (if inp.isIntr then .contIntr else .halt)
  else if inp.r < (FIXED_REQ_LEN : Int) then .skipShort inp.r.toNat
  else .dispatch inp.rq

/-- The dispatch loop over a sequence of iteration inputs.  `die()` on a
non-interrupt read error terminates the process, so `halt` ends the list. -/
def serverLoop : List LoopInput → List IterAction
  | [] => []
  | inp :: rest =>
    match serverIteration inp with
    | .halt => [.halt]
    | a => a :: serverLoop rest

/-- The requests the loop hands to workers. -/
def dispatchedOf (acts : List IterAction) : List request_msg_t :=
  acts.filterMap fun a =>
    match a with
    | .dispatch rq => some rq
    | _ => none

/-- Worker behaviour (server.c lines 180-221): the forked child computes the
response into a zeroed buffer, opens the request's `resp_fifo`, and if the
open succeeded attempts exactly one `write_full` of the encoded response;
in every case it then `_exit(0)`s — no retry, no second write.
`openOk`/`writeOk` are the outcomes of the `open` and `write_full` calls;
the list holds the payloads passed to `write_full` on the reply FIFO. -/
def workerWrites (rq : request_msg_t) (openOk writeOk : Bool) : List (List Nat) :=
  if openOk then [encodeResponse (compute rq zeroResponse)] else []

/-- The worker always reaches `_exit(0)` (server.c lines 207, 220),
whatever the open and write outcomes. -/
def workerExits (rq : request_msg_t) (openOk writeOk : Bool) : Bool :=
  true

/-- Responses the server delivers for a run of the loop, as
(reply-address bytes, response) pairs, when every worker's open and write
succeed: each dispatched request's worker writes the computed response to
that request's `resp_fifo`. -/
def responsesOf (ins : List LoopInput) : List (List Nat × response_msg_t) :=
  (dispatchedOf (serverLoop ins)).map fun rq => (rq.resp_fifo, compute rq zeroResponse)

/-- Responses delivered to one reply address. -/
def deliveredTo (addr : List Nat) (ins : List LoopInput) : List response_msg_t :=
  ((responsesOf ins).filter fun p => p.1 = addr).map Prod.snd

/-- C6: a dispatch-loop iteration whose read returned a partial record of
`k` bytes (`0 < k < FIXED_REQ_LEN`) only logs and skips: it dispatches no
worker, does not die, contributes no response to any reply address, and the
loop goes on to serve a subsequent well-formed request exactly as it would
have without the partial record. -/
theorem server_ignores_partial_request (k : Int) (b : Bool) (junk rq2 : request_msg_t)
    (ins : List LoopInput) (hk0 : 0 < k) (hk1 : k < (FIXED_REQ_LEN : Int)) :
    serverIteration ⟨k, b, junk⟩ = .skipShort k.toNat ∧
    (∀ rq, serverIteration ⟨k, b, junk⟩ ≠ .dispatch rq) ∧
    serverIteration ⟨k, b, junk⟩ ≠ .halt ∧
    serverLoop (⟨k, b, junk⟩ :: ins) = .skipShort k.toNat :: serverLoop ins ∧
    responsesOf (⟨k, b, junk⟩ :: ins) = responsesOf ins ∧
    serverLoop (⟨k, b, junk⟩ :: ⟨(FIXED_REQ_LEN : Int), false, rq2⟩ :: ins) =
      .skipShort k.toNat :: .dispatch rq2 :: serverLoop ins := by
  have hiter : serverIteration ⟨k, b, junk⟩ = .skipShort k.toNat := by
    simp only [serverIteration]
    rw [if_neg (by omega), if_neg (by omega), if_pos hk1]
  have hfull : serverIteration ⟨(FIXED_REQ_LEN : Int), false, rq2⟩ = .dispatch rq2 := by
    simp only [serverIteration, FIXED_REQ_LEN]
    norm_num
  refine ⟨hiter, ?_, ?_, ?_, ?_, ?_⟩
  · intro rq
    rw [hiter]
    simp
  · rw [hiter]
    simp
  · simp [serverLoop, hiter]
  · simp [responsesOf, serverLoop, hiter, dispatchedOf]
  · simp [serverLoop, hiter, hfull]

/-- Witness for C6 at k = 7 followed by the sample request. -/
theorem server_ignores_partial_request_witness :
    serverIteration ⟨7, false, sampleRequest⟩ = .skipShort (7 : Int).toNat ∧
    (∀ rq, serverIteration ⟨7, false, sampleRequest⟩ ≠ .dispatch rq) ∧
    serverIteration ⟨7, false, sampleRequest⟩ ≠ .halt ∧
    serverLoop (⟨7, false, sampleRequest⟩ :: []) =
      .skipShort (7 : Int).toNat :: serverLoop [] ∧
    responsesOf (⟨7, false, sampleRequest⟩ :: []) = responsesOf [] ∧
    serverLoop (⟨7, false, sampleRequest⟩ :: ⟨(FIXED_REQ_LEN : Int), false, sampleRequest⟩ :: []) =
      .skipShort (7 : Int).toNat :: .dispatch sampleRequest :: serverLoop [] :=
  server_ignores_partial_request 7 false sampleRequest sampleRequest []
    (by decide) (by decide)

/-- Loop inputs for a batch of complete, well-formed requests. -/
def fullInputs (reqs : List request_msg_t) : List LoopInput :=
  reqs.map fun rq => ⟨(FIXED_REQ_LEN : Int), false, rq⟩

lemma serverIteration_full (rq : request_msg_t) :
    serverIteration ⟨(FIXED_REQ_LEN : Int), false, rq⟩ = .dispatch rq := by
  simp only [serverIteration, FIXED_REQ_LEN]
  norm_num

lemma responsesOf_fullInputs (reqs : List request_msg_t) :
    responsesOf (fullInputs reqs) =
      reqs.map fun rq => (rq.resp_fifo, compute rq zeroResponse) := by
  induction reqs with
  | nil => rfl
  | cons a t ih =>
    simp only [fullInputs, List.map_cons] at ih ⊢
    simp only [responsesOf, serverLoop, serverIteration_full] at ih ⊢
    simp [dispatchedOf, List.filterMap_cons] at ih ⊢
    exact ih

/-- C9: when the server's loop consumes one complete request from each of a
batch of client sessions with pairwise distinct reply addresses, each
session's reply address receives exactly one response, and it is the
response computed from that session's own request — no cross-delivery. -/
theorem no_cross_delivery (reqs : List request_msg_t) (rq : request_msg_t)
    (hdist : reqs.Pairwise fun x y => x.resp_fifo ≠ y.resp_fifo)
    (hmem : rq ∈ reqs) :
    deliveredTo rq.resp_fifo (fullInputs reqs) = [compute rq zeroResponse] := by
  unfold deliveredTo
  rw [responsesOf_fullInputs]
  induction reqs with
  | nil => simp at hmem
  | cons a t ih =>
    rw [List.pairwise_cons] at hdist
    obtain ⟨hhead, htail⟩ := hdist
    rcases List.mem_cons.mp hmem with heq | hmemt
    · subst heq
      simp only [List.map_cons, List.filter_cons]
      rw [if_pos (by simp)]
      have hnone : (t.map fun x => (x.resp_fifo, compute x zeroResponse)).filter
          (fun p => p.1 = rq.resp_fifo) = [] := by
        rw [List.filter_eq_nil_iff]
        intro p hp
        obtain ⟨x, hx, hpx⟩ := List.mem_map.mp hp
        subst hpx
        simpa using (hhead x hx).symm
      simp [hnone]
    · have hne : ¬ (a.resp_fifo = rq.resp_fifo) := hhead rq hmemt
      simp only [List.map_cons, List.filter_cons]
      rw [if_neg (by simpa using hne)]
      exact ih htail hmemt

/-- Witness for C9: two add requests from distinct reply FIFOs. -/
theorem no_cross_delivery_witness :
    deliveredTo (strToBytes "/tmp/a")
      (fullInputs [⟨strToBytes "add" ++ [0], 1, 2, 10, strToBytes "/tmp/a"⟩,
                   ⟨strToBytes "sub" ++ [0], 5, 3, 11, strToBytes "/tmp/b"⟩]) =
      [compute ⟨strToBytes "add" ++ [0], 1, 2, 10, strToBytes "/tmp/a"⟩ zeroResponse] :=
  no_cross_delivery
    [⟨strToBytes "add" ++ [0], 1, 2, 10, strToBytes "/tmp/a"⟩,
     ⟨strToBytes "sub" ++ [0], 5, 3, 11, strToBytes "/tmp/b"⟩]
    ⟨strToBytes "add" ++ [0], 1, 2, 10, strToBytes "/tmp/a"⟩
    (by decide) (by decide)

/-! ### Client request construction (client.c lines 106-110)

The client zeroes the whole struct (`memset(&rq,0,sizeof(rq))`), copies
`min(OP_MAX, strlen(line))` bytes of the typed operation into `operation`,
stores the operands and its pid, and `strncpy`s the reply FIFO path into
`resp_fifo` (at most `RESP_NAME_MAX - 1` bytes, so the field stays
NUL-terminated).  `line` and `fifo` are the bytes of the two NUL-terminated
C strings involved. -/

/-- Build the request struct exactly as client.c lines 106-110 do. -/
def buildRequest (line : List Nat) (a b pid : Int) (fifo : List Nat) : request_msg_t :=
  { operation := padTo OP_MAX (line.take (min OP_MAX line.length))
    operand1 := a
    operand2 := b
    client_pid := pid
    resp_fifo := fifo.take (RESP_NAME_MAX - 1) }

/-- Any byte of a zero-padded buffer at or past the content is zero. -/
lemma padTo_getElem_of_ge (k : Nat) (bs : List Nat) (i : Nat)
    (h : i < (padTo k bs).length) (hge : bs.length ≤ i) : (padTo k bs)[i] = 0 := by
  unfold padTo at h ⊢
  rw [List.getElem_append_right hge]
  exact List.getElem_replicate _ _

/-- C7: every request the client builds encodes to the same fixed size
`FIXED_REQ_LEN`, and in the encoded bytes every byte of the `operation`
buffer beyond the copied operation text and every byte of the `resp_fifo`
buffer beyond the copied path is zero — for any typed operation string,
operand pair, pid, and reply path. -/
theorem client_request_fixed_size_zero_filled
    (line : List Nat) (a b pid : Int) (fifo : List Nat) :
    (encodeRequest (buildRequest line a b pid fifo)).length = FIXED_REQ_LEN ∧
    (buildRequest line a b pid fifo).operation.length = OP_MAX ∧
    (∀ i, (h : i < (buildRequest line a b pid fifo).operation.length) →
      min OP_MAX line.length ≤ i →
      (buildRequest line a b pid fifo).operation[i] = 0) ∧
    (padTo RESP_NAME_MAX (buildRequest line a b pid fifo).resp_fifo).length =
      RESP_NAME_MAX ∧
    (∀ i, (h : i < (padTo RESP_NAME_MAX (buildRequest line a b pid fifo).resp_fifo).length) →
      min (RESP_NAME_MAX - 1) fifo.length ≤ i →
      (padTo RESP_NAME_MAX (buildRequest line a b pid fifo).resp_fifo)[i] = 0) := by
  have hopc : (line.take (min OP_MAX line.length)).length = min OP_MAX line.length := by
    simp [List.length_take]
  have hop : (buildRequest line a b pid fifo).operation.length = OP_MAX := by
    simp only [buildRequest]
    exact padTo_length _ _ (le_trans (le_of_eq hopc) (min_le_left _ _))
  have hfc : ((buildRequest line a b pid fifo).resp_fifo).length =
      min (RESP_NAME_MAX - 1) fifo.length := by
    simp [buildRequest, List.length_take]
  have hfl : (padTo RESP_NAME_MAX (buildRequest line a b pid fifo).resp_fifo).length =
      RESP_NAME_MAX := by
    rw [padTo_length]
    rw [hfc]
    unfold RESP_NAME_MAX
    omega
  refine ⟨?_, hop, ?_, hfl, ?_⟩
  · simp only [encodeRequest, List.length_append, hop, natToLE_length, encodeInt64,
      encodeInt32]
    rw [hfl]
    rfl
  · intro i h hge
    simp only [buildRequest] at h ⊢
    exact padTo_getElem_of_ge _ _ _ h (by rw [hopc]; exact hge)
  · intro i h hge
    simp only [buildRequest] at h ⊢
    refine padTo_getElem_of_ge _ _ _ h ?_
    simp only [List.length_take]
    omega

/-- Witness for C7: the typed operation "add" with the pid-42 reply path. -/
theorem client_request_fixed_size_zero_filled_witness :
    (encodeRequest (buildRequest (strToBytes "add") 6 9 42
      (strToBytes "/tmp/arith_resp_42.fifo"))).length = FIXED_REQ_LEN ∧
    (buildRequest (strToBytes "add") 6 9 42
      (strToBytes "/tmp/arith_resp_42.fifo")).operation.length = OP_MAX ∧
    (∀ i, (h : i < (buildRequest (strToBytes "add") 6 9 42
        (strToBytes "/tmp/arith_resp_42.fifo")).operation.length) →
      min OP_MAX (strToBytes "add").length ≤ i →
      (buildRequest (strToBytes "add") 6 9 42
        (strToBytes "/tmp/arith_resp_42.fifo")).operation[i] = 0) ∧
    (padTo RESP_NAME_MAX (buildRequest (strToBytes "add") 6 9 42
      (strToBytes "/tmp/arith_resp_42.fifo")).resp_fifo).length = RESP_NAME_MAX ∧
    (∀ i, (h : i < (padTo RESP_NAME_MAX (buildRequest (strToBytes "add") 6 9 42
        (strToBytes "/tmp/arith_resp_42.fifo")).resp_fifo).length) →
      min (RESP_NAME_MAX - 1) (strToBytes "/tmp/arith_resp_42.fifo").length ≤ i →
      (padTo RESP_NAME_MAX (buildRequest (strToBytes "add") 6 9 42
        (strToBytes "/tmp/arith_resp_42.fifo")).resp_fifo)[i] = 0) :=
  client_request_fixed_size_zero_filled (strToBytes "add") 6 9 42
    (strToBytes "/tmp/arith_resp_42.fifo")

lemma compute_error_cases (rq : request_msg_t) (rp0 : response_msg_t) :
    (compute rq rp0).error = [] ∨
    (compute rq rp0).error = strToBytes "Divide by zero" ∨
    (compute rq rp0).error = strToBytes "Invalid operation" := by
  simp only [compute]
  split_ifs <;> simp

lemma encodeResponse_length_of_error_short (rp : response_msg_t)
    (h : rp.error.length ≤ 128) : (encodeResponse rp).length = FIXED_RESP_LEN := by
  simp only [encodeResponse, List.length_append, natToLE_length, encodeInt64,
    encodeInt32, padTo, List.length_replicate]
  unfold FIXED_RESP_LEN
  omega

/-- C8: for each dispatched request, the worker terminates in every outcome
(`_exit(0)`), attempts at most one write to the request's reply FIFO, writes
exactly the one encoded response `compute` produced when the open succeeds,
writes nothing when the open fails, never retries on a write failure (the
payload sequence is the same whether the write succeeds or fails), and every
payload it writes has the fixed encoded size `FIXED_RESP_LEN`. -/
theorem worker_exactly_one_response (rq : request_msg_t) (openOk writeOk : Bool) :
    workerExits rq openOk writeOk = true ∧
    (workerWrites rq openOk writeOk).length ≤ 1 ∧
    (openOk = true →
      workerWrites rq openOk writeOk = [encodeResponse (compute rq zeroResponse)]) ∧
    (openOk = false → workerWrites rq openOk writeOk = []) ∧
    workerWrites rq openOk true = workerWrites rq openOk false ∧
    (∀ w ∈ workerWrites rq openOk writeOk, w.length = FIXED_RESP_LEN) := by
  refine ⟨rfl, ?_, ?_, ?_, rfl, ?_⟩
  · cases openOk <;> simp [workerWrites]
  · intro h
    simp [workerWrites, h]
  · intro h
    simp [workerWrites, h]
  · intro w hw
    cases openOk with
    | false => simp [workerWrites] at hw
    | true =>
      simp only [workerWrites, if_pos, List.mem_singleton] at hw
      subst hw
      refine encodeResponse_length_of_error_short _ ?_
      rcases compute_error_cases rq zeroResponse with h | h | h <;> rw [h] <;> decide

/-- Witness for C8 at the sample request with a successful open. -/
theorem worker_exactly_one_response_witness :
    workerExits sampleRequest true true = true ∧
    (workerWrites sampleRequest true true).length ≤ 1 ∧
    (true = true →
      workerWrites sampleRequest true true =
        [encodeResponse (compute sampleRequest zeroResponse)]) ∧
    (true = false → workerWrites sampleRequest true true = []) ∧
    workerWrites sampleRequest true true = workerWrites sampleRequest true false ∧
    (∀ w ∈ workerWrites sampleRequest true true, w.length = FIXED_RESP_LEN) :=
  worker_exactly_one_response sampleRequest true true

end Arith
